import Mathlib

/-!
Shallow embedding of the Baylordle connections game
(src/src/app/page.tsx and src/src/app/api/puzzle/today/route.ts),
together with theorems checking the natural-language specification
against the embedded code.

Conventions of the embedding:
* JavaScript 32-bit integer operations are modelled on Nat with explicit
  `% 4294967296`; bitwise xor, or and unsigned shifts act on the two's
  complement bit pattern, which equals the value modulo 2^32.
* React state is modelled as an explicit record `GameState`; each event
  handler becomes a pure state transition.
* Strings are Lean strings; the default JavaScript array sort on strings
  (lexicographic by code unit, stable) is modelled by insertion sort with
  the lexicographic order on `String`.
-/

namespace Baylordle

/-- Tile colors, from the `Color` union type in page.tsx. -/
inductive Color where
  | yellow
  | green
  | blue
  | purple
deriving DecidableEq, Repr

/-- A puzzle group, from the `Group` type in page.tsx / the puzzle data file.
The source stores exactly four words as a tuple type; we model the words as a
list (the concrete data all has length 4). -/
structure Group where
  id : String
  title : String
  color : Color
  words : List String
deriving DecidableEq, Repr

/-- A daily puzzle, from the `Puzzle` type: a date string `YYYY-MM-DD` and
four groups (modelled as a list; the concrete data has length 4). -/
structure Puzzle where
  date : String
  groups : List Group
deriving DecidableEq, Repr

/-- A solved group as stored in component state, from the `SolvedGroup` type. -/
structure SolvedGroup where
  id : String
  title : String
  color : Color
  words : List String
deriving DecidableEq, Repr

/-- The single puzzle entry of the `PUZZLES` array from the puzzle data file
(src/unnamed/part_000). -/
def thePuzzle : Puzzle :=
  { date := "2025-12-18"
  , groups :=
      [ { id := "y1", title := "KINDS OF FRUIT", color := Color.yellow
        , words := ["APPLE", "PEAR", "PLUM", "KIWI"] }
      , { id := "g1", title := "DANCE MOVES", color := Color.green
        , words := ["TWIST", "SLIDE", "WAVE", "STEP"] }
      , { id := "b1", title := "PROGRAMMING TERMS", color := Color.blue
        , words := ["STACK", "QUEUE", "HEAP", "TREE"] }
      , { id := "p1", title := "WORDS WITH SILENT KN", color := Color.purple
        , words := ["KNIFE", "KNEE", "KNOT", "KNIGHT"] }
      ] }

/-- The `PUZZLES` array from the puzzle data file (src/unnamed/part_000). -/
def PUZZLES : List Puzzle := [thePuzzle]

/-- Lexicographic comparison of character lists by code point; for the
strings of this app (all in the basic plane) this is exactly the JavaScript
default sort comparison by UTF-16 code units. -/
def charListLe : List Char → List Char → Bool
  | [], _ => true
  | _ :: _, [] => false
  | a :: as, b :: bs =>
      if a.toNat < b.toNat then true
      else if b.toNat < a.toNat then false
      else charListLe as bs

/-- String comparison used to model the JavaScript default array sort. -/
def jsLe (a b : String) : Bool :=
  charListLe a.data b.data

/-- Insert a string into an ascending list, after the entries that are ≤ it. -/
def sortedInsert (x : String) : List String → List String
  | [] => [x]
  | y :: ys => if jsLe y x then y :: sortedInsert x ys else x :: y :: ys

/-- Sorting of a string list, modelling `arr.slice().sort()` (equal strings
are identical, so every correct sort of a string list is the same list as
the JavaScript stable sort). -/
def sortStrings : List String → List String
  | [] => []
  | x :: xs => sortedInsert x (sortStrings xs)

/-- `normalizeSet` from page.tsx: sort the words (JavaScript default string
sort) and join them with the separator `"|"`. -/
def normalizeSet (arr : List String) : String :=
  String.intercalate "|" (sortStrings arr)

/-! ### The seeded shuffle (mulberry32 + Fisher-Yates), page.tsx lines 364-386 -/

/-- One step of the `mulberry32` generator from page.tsx, on the 32-bit
state: returns the new internal seed state and the 32-bit output word.
JavaScript `seed += 0x6D2B79F5` followed by `Math.imul`, `^`, `>>>`, `|`
on 32-bit patterns is modelled exactly on Nat modulo 2^32. -/
def mb32 (s : Nat) : Nat × Nat :=
  let s1 := (s + 0x6D2B79F5) % 4294967296
  let t1 := ((s1 ^^^ (s1 >>> 15)) * (s1 ||| 1)) % 4294967296
  let t2 := t1 ^^^ ((t1 + ((t1 ^^^ (t1 >>> 7)) * (t1 ||| 61)) % 4294967296) % 4294967296)
  (s1, t2 ^^^ (t2 >>> 14))

/-- Swap the entries at positions `i` and `j` of a list; identity when either
index is out of bounds.  Models the JavaScript swap
`[a[i], a[j]] = [a[j], a[i]]` (whose indices are always in bounds there). -/
def listSwap (l : List α) (i j : Nat) : List α :=
  match l[i]?, l[j]? with
  | some x, some y => (l.set i y).set j x
  | _, _ => l

/-- The Fisher-Yates loop of `seededShuffle`: index `i` runs downward to 1;
`j = Math.floor(rnd() * (i+1))` is exact on Nat because the 32-bit output
`r` gives `rnd() = r / 2^32` and `r * (i+1)` is exact in double precision. -/
def fyAux {α : Type _} (n : Nat) : Nat → List α → List α :=
  Nat.rec (fun _ a => a)
    (fun k ih s a => ih (mb32 s).1 (listSwap a (k + 1) ((mb32 s).2 * (k + 2) / 4294967296)))
    n

/-- `seededShuffle` from page.tsx: copy the array and run the seeded
Fisher-Yates loop from `i = length - 1` down to `1`. -/
def seededShuffle (arr : List α) (seed : Nat) : List α :=
  fyAux (arr.length - 1) seed arr

/-- `seedFromDate` from page.tsx: `Number(date.replaceAll("-", ""))`,
the integer whose decimal digits are the digits of the `YYYY-MM-DD` string. -/
def seedFromDate (date : String) : Nat :=
  (date.data.filter (fun c => c ≠ '-')).foldl (fun n c => n * 10 + (c.toNat - 48)) 0

/-- All 16 words of the puzzle in display order (`allWords` in page.tsx):
the flattened group words shuffled with seed `seedFromDate date + seed`,
where `seed` is the reshuffle counter component state. -/
def allWords (p : Puzzle) (seed : Nat) : List String :=
  seededShuffle (p.groups.flatMap (fun g => g.words)) (seedFromDate p.date + seed)

/-! ### Game session state and event handlers, page.tsx lines 475-809 -/

/-- The session state relevant to the game state machine: the component
state variables `selected`, `mistakesLeft`, `solved`, `guessedSets`, `seed`,
`message` and `lockedOut` of `HomePage`. -/
structure GameState where
  selected : List String
  mistakesLeft : Nat
  solved : List SolvedGroup
  guessedSets : List String
  seed : Nat
  message : String
  lockedOut : Bool
deriving DecidableEq, Repr

/-- The fresh session state (the `useState` initial values). -/
def initState : GameState :=
  { selected := [], mistakesLeft := 4, solved := [], guessedSets := []
  , seed := 0, message := "", lockedOut := false }

/-- `isGameOver` from page.tsx line 492: `mistakesLeft === 0 || solved.length === 4`. -/
def isGameOver (st : GameState) : Bool :=
  st.mistakesLeft == 0 || st.solved.length == 4

/-- `didWin` from page.tsx line 497: `solved.length === 4`. -/
def didWin (st : GameState) : Bool :=
  st.solved.length == 4

/-- `isLoss` from page.tsx line 498: `isGameOver && !didWin`. -/
def isLoss (st : GameState) : Bool :=
  isGameOver st && !didWin st

/-- `toggleWord` from page.tsx: no-op when locked out or the game is over;
otherwise clear the message and toggle the word (deselect if present,
ignore when 4 words are already selected, else append). -/
def toggleWord (word : String) (st : GameState) : GameState :=
  if st.lockedOut || isGameOver st then st
  else
    let sel :=
      if st.selected.contains word then st.selected.filter (fun w => w ≠ word)
      else if st.selected.length ≥ 4 then st.selected
      else st.selected ++ [word]
    { st with message := "", selected := sel }

/-- The `oneAway` test inside `submit`: some group shares exactly three
entries with the current selection (`overlap === 3` in the source). -/
def oneAwayB (p : Puzzle) (st : GameState) : Bool :=
  p.groups.any (fun g => (st.selected.filter (fun w => g.words.contains w)).length == 3)

/-- The group lookup inside `submit`: the first group whose normalized word
list equals the normalized selection. -/
def findMatch (p : Puzzle) (st : GameState) : Option Group :=
  p.groups.find? (fun g => normalizeSet g.words == normalizeSet st.selected)

/-- `submit` from page.tsx lines 744-794, as a pure transition on the session
state (the framer-motion animation calls have no state-machine effect). -/
def submit (p : Puzzle) (st : GameState) : GameState :=
  if st.lockedOut || isGameOver st then st
  else if st.selected.length ≠ 4 then { st with message := "Select 4 words." }
  else if normalizeSet st.selected ∈ st.guessedSets then
    { st with message := "Already guessed." }
  else
    let st1 := { st with guessedSets := st.guessedSets ++ [normalizeSet st.selected] }
    match findMatch p st with
    | some g =>
        { st1 with
          solved := st1.solved ++
            [{ id := g.id, title := g.title, color := g.color, words := g.words }]
        , selected := []
        , message := "Correct!" }
    | none =>
        { st1 with
          mistakesLeft := st.mistakesLeft - 1
        , message := if oneAwayB p st then "One away…" else "Nope." }

/-- `clear` from page.tsx: no-op when locked out or over; otherwise clear
the selection and the message. -/
def clear (st : GameState) : GameState :=
  if st.lockedOut || isGameOver st then st
  else { st with selected := [], message := "" }

/-- `shuffleNow` from page.tsx: no-op when locked out or over; otherwise
clear selection and message and bump the reshuffle counter. -/
def shuffleNow (st : GameState) : GameState :=
  if st.lockedOut || isGameOver st then st
  else { st with selected := [], message := "", seed := st.seed + 1 }

/-- The player-driven session operations. -/
inductive Op where
  | toggle (word : String)
  | submitSel
  | clearSel
  | shuffle
deriving DecidableEq, Repr

/-- One step of the session state machine. -/
def step (p : Puzzle) (st : GameState) : Op → GameState
  | Op.toggle w => toggleWord w st
  | Op.submitSel => submit p st
  | Op.clearSel => clear st
  | Op.shuffle => shuffleNow st

/-- Run a list of operations from a state. -/
def run (p : Puzzle) (st : GameState) : List Op → GameState
  | [] => st
  | op :: ops => run p (step p st op) ops

/-- Whether a `submit` in state `st` is processed as an accepted
non-matching guess: the game is live, exactly 4 words are selected, the
signature is new, and no group matches.  Exactly these submissions take
the `setMistakesLeft(m - 1)` branch of `submit`. -/
def wrongSubmit (p : Puzzle) (st : GameState) : Bool :=
  !(st.lockedOut || isGameOver st) &&
  st.selected.length == 4 &&
  !(st.guessedSets.contains (normalizeSet st.selected)) &&
  (findMatch p st).isNone

/-- Number of accepted non-matching submissions along a trace. -/
def wrongCount (p : Puzzle) (st : GameState) : List Op → Nat
  | [] => 0
  | op :: ops =>
      (if op == Op.submitSel && wrongSubmit p st then 1 else 0) +
        wrongCount p (step p st op) ops

/-! ### Board rows shown after a loss, page.tsx lines 675-717 -/

/-- `finalSolutionRows` from page.tsx: the four groups of the puzzle in the
original puzzle order, as solved rows. -/
def finalSolutionRows (p : Puzzle) : List SolvedGroup :=
  p.groups.map (fun g =>
    { id := g.id, title := g.title, color := g.color, words := g.words })

/-- `boardRows` from page.tsx: during a reveal show what has been revealed
so far after the solved rows; after a loss show the full solution; otherwise
show the rows the player solved. -/
def boardRows (p : Puzzle) (revealMode : Bool) (st : GameState)
    (revealedGroups : List SolvedGroup) : List SolvedGroup :=
  if revealMode then st.solved ++ revealedGroups
  else if isGameOver st && !didWin st then finalSolutionRows p
  else st.solved

/-! ### Player statistics, page.tsx lines 30-66, 127-134, 556-594 -/

/-- The `PlayerStats` record persisted to local storage. -/
structure PlayerStats where
  totalPlayed : Nat
  totalCompleted : Nat
  currentStreak : Nat
  longestStreak : Nat
  lastCompletedDate : Option String
  totalMistakesUsed : Nat
  totalSeconds : Nat
deriving DecidableEq, Repr

/-- Days from the civil epoch 1970-01-01 for a proleptic Gregorian date.
Models the JavaScript `Date.UTC(y, m - 1, d) / 86400000` computation used
by `daysBetween` (for in-range dates `Date.UTC` is exactly the Gregorian
day count times 86400000). -/
def daysFromCivil (y m d : Int) : Int :=
  let y1 := if m ≤ 2 then y - 1 else y
  let era := Int.fdiv y1 400
  let yoe := y1 - era * 400
  let mp := if m > 2 then m - 3 else m + 9
  let doy := Int.fdiv (153 * mp + 2) 5 + d - 1
  let doe := yoe * 365 + Int.fdiv yoe 4 - Int.fdiv yoe 100 + doy
  era * 146097 + doe - 719468

/-- Parse one decimal field, as JavaScript `Number` does on a digit string. -/
def digitsToNat (cs : List Char) : Nat :=
  cs.foldl (fun n c => n * 10 + (c.toNat - 48)) 0

/-- Split a character list at the separator `-`
(the `a.split("-")` of the source). -/
def splitDash : List Char → List Char → List (List Char)
  | [], acc => [acc.reverse]
  | c :: rest, acc =>
      if c = '-' then acc.reverse :: splitDash rest []
      else splitDash rest (c :: acc)

/-- Split a `YYYY-MM-DD` string into numeric year, month, day
(`a.split("-").map(Number)` in the source). -/
def parseDate (s : String) : Int × Int × Int :=
  match splitDash s.data [] with
  | [ys, ms, ds] => ((digitsToNat ys : Int), (digitsToNat ms : Int), (digitsToNat ds : Int))
  | _ => (0, 0, 0)

/-- `daysBetween` from page.tsx: the signed number of calendar days from
date `a` to date `b` (both `YYYY-MM-DD`, treated as UTC midnights). -/
def daysBetween (a b : String) : Int :=
  let pa := parseDate a
  let pb := parseDate b
  daysFromCivil pb.1 pb.2.1 pb.2.2 - daysFromCivil pa.1 pa.2.1 pa.2.2

/-- The stats-recording effect of page.tsx lines 556-594, run once when a
game first reaches game-over for a date: bump the play counters; on a win
bump `totalCompleted`, continue or reset the streak using `daysBetween`
against the previously recorded completion date, and raise `longestStreak`;
on a loss reset `currentStreak` to 0. -/
def updateStats (prev : PlayerStats) (won : Bool) (mistakesUsed secondsElapsed : Nat)
    (puzzleDate : String) : PlayerStats :=
  let base := { prev with
    totalPlayed := prev.totalPlayed + 1
  , totalMistakesUsed := prev.totalMistakesUsed + mistakesUsed
  , totalSeconds := prev.totalSeconds + secondsElapsed }
  if won then
    let cs : Nat :=
      match prev.lastCompletedDate with
      | none => 1
      | some last => if daysBetween last puzzleDate = 1 then prev.currentStreak + 1 else 1
    { base with
      totalCompleted := prev.totalCompleted + 1
    , currentStreak := cs
    , longestStreak := max prev.longestStreak cs
    , lastCompletedDate := some puzzleDate }
  else
    { base with currentStreak := 0 }

/-! ### The today-puzzle endpoint, src/src/app/api/puzzle/today/route.ts -/

/-- The GET handler of the today endpoint: the first puzzle whose date is
`today`, falling back to the last element of `PUZZLES`
(`PUZZLES.find(...) ?? PUZZLES[PUZZLES.length - 1]`). -/
def todayPuzzle (puzzles : List Puzzle) (today : String) : Option Puzzle :=
  match puzzles.find? (fun p => p.date == today) with
  | some p => some p
  | none => puzzles.getLast?

/-- Modelled from the spec: the "most recent defined puzzle", the puzzle
with the (lexicographically, hence for `YYYY-MM-DD` chronologically)
greatest date.  Used only to compare with the fallback branch of the code,
which takes the last array element. -/
def specMostRecentPuzzle (puzzles : List Puzzle) : Option Puzzle :=
  puzzles.foldl
    (fun best p =>
      match best with
      | none => some p
      | some q => if q.date ≤ p.date then some p else some q)
    none

/-! ### Shape lemmas for the event handlers -/

theorem submit_blocked {p : Puzzle} {st : GameState}
    (h : (st.lockedOut || isGameOver st) = true) : submit p st = st := by
  simp [submit, h]

theorem submit_not_four {p : Puzzle} {st : GameState}
    (h1 : st.lockedOut = false) (h2 : isGameOver st = false)
    (h3 : st.selected.length ≠ 4) :
    submit p st = { st with message := "Select 4 words." } := by
  simp [submit, h1, h2, h3]

theorem submit_dup {p : Puzzle} {st : GameState}
    (h1 : st.lockedOut = false) (h2 : isGameOver st = false)
    (h3 : st.selected.length = 4)
    (h4 : normalizeSet st.selected ∈ st.guessedSets) :
    submit p st = { st with message := "Already guessed." } := by
  simp [submit, h1, h2, h3, h4]

theorem submit_match {p : Puzzle} {st : GameState} {g : Group}
    (h1 : st.lockedOut = false) (h2 : isGameOver st = false)
    (h3 : st.selected.length = 4)
    (h4 : normalizeSet st.selected ∉ st.guessedSets)
    (h5 : findMatch p st = some g) :
    submit p st =
      { st with
        guessedSets := st.guessedSets ++ [normalizeSet st.selected]
      , solved := st.solved ++
          [{ id := g.id, title := g.title, color := g.color, words := g.words }]
      , selected := []
      , message := "Correct!" } := by
  simp [submit, h1, h2, h3, h4, h5]

theorem submit_nomatch {p : Puzzle} {st : GameState}
    (h1 : st.lockedOut = false) (h2 : isGameOver st = false)
    (h3 : st.selected.length = 4)
    (h4 : normalizeSet st.selected ∉ st.guessedSets)
    (h5 : findMatch p st = none) :
    submit p st =
      { st with
        guessedSets := st.guessedSets ++ [normalizeSet st.selected]
      , mistakesLeft := st.mistakesLeft - 1
      , message := if oneAwayB p st then "One away…" else "Nope." } := by
  simp [submit, h1, h2, h3, h4, h5]

theorem step_over {p : Puzzle} {st : GameState} (op : Op)
    (h : isGameOver st = true) : step p st op = st := by
  cases op <;> simp [step, toggleWord, submit, clear, shuffleNow, h]

theorem live_parts {st : GameState}
    (h : (st.lockedOut || isGameOver st) = false) :
    st.lockedOut = false ∧ isGameOver st = false := by
  simpa [Bool.or_eq_false_iff] using h

theorem mistakes_ne_zero_of_live {st : GameState} (h : isGameOver st = false) :
    st.mistakesLeft ≠ 0 := by
  simp [isGameOver, Bool.or_eq_false_iff] at h
  exact h.1

theorem step_mistakes_le (p : Puzzle) (st : GameState) (op : Op) :
    (step p st op).mistakesLeft ≤ st.mistakesLeft := by
  cases op with
  | toggle w => simp only [step, toggleWord]; split <;> simp
  | clearSel => simp only [step, clear]; split <;> simp
  | shuffle => simp only [step, shuffleNow]; split <;> simp
  | submitSel =>
    show (submit p st).mistakesLeft ≤ st.mistakesLeft
    by_cases hb : (st.lockedOut || isGameOver st) = true
    · rw [submit_blocked hb]
    · obtain ⟨h1, h2⟩ := live_parts (Bool.eq_false_iff.mpr hb)
      by_cases h3 : st.selected.length = 4
      · by_cases h4 : normalizeSet st.selected ∈ st.guessedSets
        · rw [submit_dup h1 h2 h3 h4]
        · rcases hf : findMatch p st with _ | g
          · rw [submit_nomatch h1 h2 h3 h4 hf]
            exact Nat.sub_le _ _
          · rw [submit_match h1 h2 h3 h4 hf]
      · rw [submit_not_four h1 h2 h3]

theorem step_solved_shape (p : Puzzle) (st : GameState) (op : Op) :
    ∃ t, (step p st op).solved = st.solved ++ t ∧
      (t = [] ∨ (isGameOver st = false ∧ t.length = 1)) := by
  cases op with
  | toggle w =>
    refine ⟨[], ?_, Or.inl rfl⟩
    simp only [step, toggleWord]; split <;> simp
  | clearSel =>
    refine ⟨[], ?_, Or.inl rfl⟩
    simp only [step, clear]; split <;> simp
  | shuffle =>
    refine ⟨[], ?_, Or.inl rfl⟩
    simp only [step, shuffleNow]; split <;> simp
  | submitSel =>
    show ∃ t, (submit p st).solved = st.solved ++ t ∧ _
    by_cases hb : (st.lockedOut || isGameOver st) = true
    · exact ⟨[], by rw [submit_blocked hb]; simp, Or.inl rfl⟩
    · obtain ⟨h1, h2⟩ := live_parts (Bool.eq_false_iff.mpr hb)
      by_cases h3 : st.selected.length = 4
      · by_cases h4 : normalizeSet st.selected ∈ st.guessedSets
        · exact ⟨[], by rw [submit_dup h1 h2 h3 h4]; simp, Or.inl rfl⟩
        · rcases hf : findMatch p st with _ | g
          · exact ⟨[], by rw [submit_nomatch h1 h2 h3 h4 hf]; simp, Or.inl rfl⟩
          · exact ⟨[{ id := g.id, title := g.title, color := g.color, words := g.words }],
              by rw [submit_match h1 h2 h3 h4 hf], Or.inr ⟨h2, rfl⟩⟩
      · exact ⟨[], by rw [submit_not_four h1 h2 h3]; simp, Or.inl rfl⟩

theorem step_guessed_shape (p : Puzzle) (st : GameState) (op : Op) :
    ∃ t, (step p st op).guessedSets = st.guessedSets ++ t := by
  cases op with
  | toggle w =>
    refine ⟨[], ?_⟩; simp only [step, toggleWord]; split <;> simp
  | clearSel =>
    refine ⟨[], ?_⟩; simp only [step, clear]; split <;> simp
  | shuffle =>
    refine ⟨[], ?_⟩; simp only [step, shuffleNow]; split <;> simp
  | submitSel =>
    show ∃ t, (submit p st).guessedSets = st.guessedSets ++ t
    by_cases hb : (st.lockedOut || isGameOver st) = true
    · exact ⟨[], by rw [submit_blocked hb]; simp⟩
    · obtain ⟨h1, h2⟩ := live_parts (Bool.eq_false_iff.mpr hb)
      by_cases h3 : st.selected.length = 4
      · by_cases h4 : normalizeSet st.selected ∈ st.guessedSets
        · exact ⟨[], by rw [submit_dup h1 h2 h3 h4]; simp⟩
        · rcases hf : findMatch p st with _ | g
          · exact ⟨[normalizeSet st.selected], by rw [submit_nomatch h1 h2 h3 h4 hf]⟩
          · exact ⟨[normalizeSet st.selected], by rw [submit_match h1 h2 h3 h4 hf]⟩
      · exact ⟨[], by rw [submit_not_four h1 h2 h3]; simp⟩

theorem wrongSubmit_parts {p : Puzzle} {st : GameState}
    (h : wrongSubmit p st = true) :
    st.lockedOut = false ∧ isGameOver st = false ∧ st.selected.length = 4 ∧
      normalizeSet st.selected ∉ st.guessedSets ∧ findMatch p st = none := by
  simp only [wrongSubmit, Bool.and_eq_true, Bool.not_eq_true', Option.isNone_iff_eq_none,
    beq_iff_eq] at h
  obtain ⟨⟨⟨hb, hlen⟩, hmem⟩, hfind⟩ := h
  obtain ⟨h1, h2⟩ := live_parts hb
  refine ⟨h1, h2, hlen, ?_, hfind⟩
  simpa [List.elem_iff] using hmem

theorem step_mistakes_wrong {p : Puzzle} {st : GameState}
    (h : wrongSubmit p st = true) :
    (step p st Op.submitSel).mistakesLeft = st.mistakesLeft - 1 ∧
      st.mistakesLeft ≠ 0 := by
  obtain ⟨h1, h2, h3, h4, h5⟩ := wrongSubmit_parts h
  constructor
  · show (submit p st).mistakesLeft = st.mistakesLeft - 1
    rw [submit_nomatch h1 h2 h3 h4 h5]
  · exact mistakes_ne_zero_of_live h2

theorem step_mistakes_eq {p : Puzzle} {st : GameState} {op : Op}
    (h : ¬(op = Op.submitSel ∧ wrongSubmit p st = true)) :
    (step p st op).mistakesLeft = st.mistakesLeft := by
  cases op with
  | toggle w => simp only [step, toggleWord]; split <;> simp
  | clearSel => simp only [step, clear]; split <;> simp
  | shuffle => simp only [step, shuffleNow]; split <;> simp
  | submitSel =>
    have hw : wrongSubmit p st = false := by
      rcases Bool.eq_false_or_eq_true (wrongSubmit p st) with ht | hf
      · exact absurd ⟨rfl, ht⟩ h
      · exact hf
    show (submit p st).mistakesLeft = st.mistakesLeft
    by_cases hb : (st.lockedOut || isGameOver st) = true
    · rw [submit_blocked hb]
    · obtain ⟨h1, h2⟩ := live_parts (Bool.eq_false_iff.mpr hb)
      by_cases h3 : st.selected.length = 4
      · by_cases h4 : normalizeSet st.selected ∈ st.guessedSets
        · rw [submit_dup h1 h2 h3 h4]
        · rcases hf : findMatch p st with _ | g
          · exfalso
            have : wrongSubmit p st = true := by
              simp [wrongSubmit, Bool.eq_false_iff.mpr hb, h3, hf,
                List.elem_iff, h4]
            rw [this] at hw; cases hw
          · rw [submit_match h1 h2 h3 h4 hf]
      · rw [submit_not_four h1 h2 h3]

/-! ### Permutation facts about the Fisher-Yates shuffle -/

theorem get_cons_set_perm {α : Type _} (xs : List α) (k : Nat) (hk : k < xs.length)
    (x : α) : (xs.get ⟨k, hk⟩ :: xs.set k x).Perm (x :: xs) := by
  induction xs generalizing k with
  | nil => simp at hk
  | cons y ys ih =>
    cases k with
    | zero =>
      simpa [List.set] using List.Perm.swap x y ys
    | succ m =>
      have hm : m < ys.length := by simpa using hk
      have h1 := ih m hm
      have e0 : (y :: ys).get ⟨m + 1, hk⟩ :: (y :: ys).set (m + 1) x =
          ys.get ⟨m, hm⟩ :: y :: ys.set m x := by simp [List.set]
      rw [e0]
      have p1 : (ys.get ⟨m, hm⟩ :: y :: ys.set m x).Perm
          (y :: ys.get ⟨m, hm⟩ :: ys.set m x) := List.Perm.swap y _ _
      have p2 : (y :: ys.get ⟨m, hm⟩ :: ys.set m x).Perm (y :: x :: ys) :=
        List.Perm.cons y h1
      have p3 : (y :: x :: ys).Perm (x :: y :: ys) := List.Perm.swap x y ys
      exact p1.trans (p2.trans p3)

theorem set_set_swap_perm {α : Type _} (l : List α) (i j : Nat)
    (hi : i < l.length) (hj : j < l.length) :
    ((l.set i (l.get ⟨j, hj⟩)).set j (l.get ⟨i, hi⟩)).Perm l := by
  induction l generalizing i j with
  | nil => simp at hi
  | cons a l ih =>
    cases i with
    | zero =>
      cases j with
      | zero => simp [List.set]
      | succ m =>
        have hm : m < l.length := by simpa using hj
        have : ((a :: l).set 0 ((a :: l).get ⟨m + 1, hj⟩)).set (m + 1)
            ((a :: l).get ⟨0, hi⟩) = l.get ⟨m, hm⟩ :: l.set m a := by
          simp [List.set]
        rw [this]
        exact get_cons_set_perm l m hm a
    | succ n =>
      cases j with
      | zero =>
        have hn : n < l.length := by simpa using hi
        have : ((a :: l).set (n + 1) ((a :: l).get ⟨0, hj⟩)).set 0
            ((a :: l).get ⟨n + 1, hi⟩) = l.get ⟨n, hn⟩ :: l.set n a := by
          simp [List.set]
        rw [this]
        exact get_cons_set_perm l n hn a
      | succ m =>
        have hn : n < l.length := by simpa using hi
        have hm : m < l.length := by simpa using hj
        have : ((a :: l).set (n + 1) ((a :: l).get ⟨m + 1, hj⟩)).set (m + 1)
            ((a :: l).get ⟨n + 1, hi⟩) =
            a :: ((l.set n (l.get ⟨m, hm⟩)).set m (l.get ⟨n, hn⟩)) := by
          simp [List.set]
        rw [this]
        exact List.Perm.cons a (ih n m hn hm)

theorem listSwap_perm {α : Type _} (l : List α) (i j : Nat) :
    (listSwap l i j).Perm l := by
  unfold listSwap
  rcases hx : l[i]? with _ | x
  · exact List.Perm.refl l
  · rcases hy : l[j]? with _ | y
    · exact List.Perm.refl l
    · have hi : i < l.length := by
        rcases List.getElem?_eq_some_iff.mp hx with ⟨h, _⟩; exact h
      have hj : j < l.length := by
        rcases List.getElem?_eq_some_iff.mp hy with ⟨h, _⟩; exact h
      have hx2 : x = l.get ⟨i, hi⟩ := by
        rcases List.getElem?_eq_some_iff.mp hx with ⟨h, he⟩
        simp [← he, List.get_eq_getElem]
      have hy2 : y = l.get ⟨j, hj⟩ := by
        rcases List.getElem?_eq_some_iff.mp hy with ⟨h, he⟩
        simp [← he, List.get_eq_getElem]
      rw [hx2, hy2]
      exact set_set_swap_perm l i j hi hj

theorem fyAux_perm {α : Type _} (n : Nat) :
    ∀ (s : Nat) (a : List α), (fyAux n s a).Perm a := by
  induction n with
  | zero => intro s a; exact List.Perm.refl a
  | succ k ih =>
    intro s a
    exact (ih (mb32 s).1 _).trans (listSwap_perm a (k + 1) _)

theorem seededShuffle_perm {α : Type _} (arr : List α) (seed : Nat) :
    (seededShuffle arr seed).Perm arr :=
  fyAux_perm (arr.length - 1) seed arr

/-! ### Trace-level lemmas -/

theorem game_not_over_parts {st : GameState} (h : isGameOver st = false) :
    st.mistakesLeft ≠ 0 ∧ st.solved.length ≠ 4 := by
  simpa [isGameOver, Bool.or_eq_false_iff] using h

theorem step_solved_le {p : Puzzle} {st : GameState} {op : Op}
    (h : st.solved.length ≤ 4) : (step p st op).solved.length ≤ 4 := by
  obtain ⟨t, ht, hcase⟩ := step_solved_shape p st op
  rcases hcase with rfl | ⟨hover, hlen⟩
  · simpa [ht] using h
  · have h4 := (game_not_over_parts hover).2
    rw [ht]
    simp only [List.length_append, hlen]
    omega

theorem run_solved_le (p : Puzzle) :
    ∀ (ops : List Op) (st : GameState), st.solved.length ≤ 4 →
      (run p st ops).solved.length ≤ 4 := by
  intro ops
  induction ops with
  | nil => intro st h; simpa [run] using h
  | cons op ops ih =>
    intro st h
    exact ih (step p st op) (step_solved_le h)

theorem run_mistakes (p : Puzzle) :
    ∀ (ops : List Op) (st : GameState),
      (run p st ops).mistakesLeft = st.mistakesLeft - wrongCount p st ops ∧
        wrongCount p st ops ≤ st.mistakesLeft := by
  intro ops
  induction ops with
  | nil => intro st; simp [run, wrongCount]
  | cons op ops ih =>
    intro st
    rcases Bool.eq_false_or_eq_true (op == Op.submitSel && wrongSubmit p st) with hc | hc
    · have hp : op = Op.submitSel ∧ wrongSubmit p st = true := by
        simpa [Bool.and_eq_true] using hc
      obtain ⟨h1, h2⟩ := hp
      subst h1
      obtain ⟨hm, hne⟩ := step_mistakes_wrong h2
      have ihs := ih (step p st Op.submitSel)
      have hwc : wrongCount p st (Op.submitSel :: ops) =
          1 + wrongCount p (step p st Op.submitSel) ops := by
        simp [wrongCount, h2]
      have h3 : wrongCount p (step p st Op.submitSel) ops ≤ st.mistakesLeft - 1 :=
        hm ▸ ihs.2
      constructor
      · show (run p (step p st Op.submitSel) ops).mistakesLeft = _
        rw [ihs.1, hm, hwc]
        omega
      · rw [hwc]
        omega

    · have hne : ¬(op = Op.submitSel ∧ wrongSubmit p st = true) := by
        rintro ⟨h1, h2⟩
        rw [h1, h2] at hc
        simp at hc
      have hm : (step p st op).mistakesLeft = st.mistakesLeft := step_mistakes_eq hne
      have ihs := ih (step p st op)
      have hwc : wrongCount p st (op :: ops) = wrongCount p (step p st op) ops := by
        simp [wrongCount, hc]
      constructor
      · show (run p (step p st op) ops).mistakesLeft = _
        rw [ihs.1, hm, hwc]
      · rw [hwc]
        exact hm ▸ ihs.2
/-! ### Classification of a submission -/

theorem findMatch_some_parts {p : Puzzle} {st : GameState} {g : Group}
    (h : findMatch p st = some g) :
    g ∈ p.groups ∧ normalizeSet g.words = normalizeSet st.selected := by
  refine ⟨List.mem_of_find?_eq_some h, ?_⟩
  simpa [beq_iff_eq] using List.find?_some h

theorem findMatch_none_parts {p : Puzzle} {st : GameState}
    (h : findMatch p st = none) :
    ∀ g ∈ p.groups, normalizeSet g.words ≠ normalizeSet st.selected := by
  intro g hg
  simpa [beq_iff_eq] using List.find?_eq_none.mp h g hg

theorem findMatch_not_none {p : Puzzle} {st : GameState}
    (h : ∃ g ∈ p.groups, normalizeSet g.words = normalizeSet st.selected) :
    findMatch p st ≠ none := by
  intro hn
  obtain ⟨g, hg, he⟩ := h
  exact findMatch_none_parts hn g hg he

theorem filter_contains_length (ws : List String) {sel : List String}
    (h : sel.Nodup) :
    (sel.filter (fun w => ws.contains w)).length =
      (sel.toFinset ∩ ws.toFinset).card := by
  have h2 : (sel.filter (fun w => ws.contains w)).Nodup := h.filter _
  rw [← List.toFinset_card_of_nodup h2]
  congr 1
  ext a
  simp [List.mem_filter, List.elem_iff]

theorem oneAwayB_iff {p : Puzzle} {st : GameState} (hnd : st.selected.Nodup) :
    oneAwayB p st = true ↔
      ∃ g ∈ p.groups, (st.selected.toFinset ∩ g.words.toFinset).card = 3 := by
  unfold oneAwayB
  rw [List.any_eq_true]
  have he : ∀ g : Group,
      ((st.selected.filter (fun w => g.words.contains w)).length == 3) = true ↔
        (st.selected.toFinset ∩ g.words.toFinset).card = 3 := by
    intro g
    rw [beq_iff_eq, filter_contains_length g.words hnd]
  constructor
  · rintro ⟨g, hg, hx⟩
    exact ⟨g, hg, (he g).mp hx⟩
  · rintro ⟨g, hg, hx⟩
    exact ⟨g, hg, (he g).mpr hx⟩

/-! ### Claim theorems -/

/-- C1: for every submitted selection of exactly 4 distinct words in an
in-progress game (with a not-yet-guessed signature), `submit` classifies it
as Correct iff the selection's normalized word set (sort + join) equals some
group's normalized word set, as One-away iff it is not Correct and shares
exactly 3 words with some group (order-independent set overlap), and as
Incorrect ("Nope.") otherwise. -/
theorem submit_classification (p : Puzzle) (st : GameState)
    (h1 : st.lockedOut = false) (h2 : isGameOver st = false)
    (h3 : st.selected.length = 4) (hnd : st.selected.Nodup)
    (h4 : normalizeSet st.selected ∉ st.guessedSets) :
    ((submit p st).message = "Correct!" ↔
        ∃ g ∈ p.groups, normalizeSet g.words = normalizeSet st.selected) ∧
    ((submit p st).message = "One away…" ↔
        (¬∃ g ∈ p.groups, normalizeSet g.words = normalizeSet st.selected) ∧
        ∃ g ∈ p.groups, (st.selected.toFinset ∩ g.words.toFinset).card = 3) ∧
    ((submit p st).message = "Nope." ↔
        (¬∃ g ∈ p.groups, normalizeSet g.words = normalizeSet st.selected) ∧
        ¬∃ g ∈ p.groups, (st.selected.toFinset ∩ g.words.toFinset).card = 3) := by
  rcases hf : findMatch p st with _ | g
  · have hnom : ¬∃ g ∈ p.groups, normalizeSet g.words = normalizeSet st.selected := by
      rintro ⟨g, hg, he⟩
      exact findMatch_none_parts hf g hg he
    have hmsg : (submit p st).message =
        (if oneAwayB p st then "One away…" else "Nope.") := by
      rw [submit_nomatch h1 h2 h3 h4 hf]
    rcases Bool.eq_false_or_eq_true (oneAwayB p st) with hoa | hoa
    · rw [hoa] at hmsg
      simp only [if_true] at hmsg
      rw [hmsg]
      refine ⟨⟨fun h => absurd h (by decide), fun hex => absurd hex hnom⟩,
        ⟨fun _ => ⟨hnom, (oneAwayB_iff hnd).mp hoa⟩, fun _ => rfl⟩,
        ⟨fun h => absurd h (by decide), ?_⟩⟩
      rintro ⟨-, hno3⟩
      exact absurd ((oneAwayB_iff hnd).mp hoa) hno3
    · rw [hoa] at hmsg
      simp only [if_false, Bool.false_eq_true] at hmsg
      rw [hmsg]
      have hno3 : ¬∃ g ∈ p.groups,
          (st.selected.toFinset ∩ g.words.toFinset).card = 3 := by
        intro hex
        rw [← oneAwayB_iff hnd] at hex
        rw [hex] at hoa
        cases hoa
      refine ⟨⟨fun h => absurd h (by decide), fun hex => absurd hex hnom⟩,
        ⟨fun h => absurd h (by decide), ?_⟩,
        ⟨fun _ => ⟨hnom, hno3⟩, fun _ => rfl⟩⟩
      rintro ⟨-, h3x⟩
      exact absurd h3x hno3
  · obtain ⟨hg, he⟩ := findMatch_some_parts hf
    have hmsg : (submit p st).message = "Correct!" := by
      rw [submit_match h1 h2 h3 h4 hf]
    rw [hmsg]
    have hex : ∃ g ∈ p.groups, normalizeSet g.words = normalizeSet st.selected :=
      ⟨g, hg, he⟩
    exact ⟨⟨fun _ => hex, fun _ => rfl⟩,
      ⟨fun h => absurd h (by decide), fun hx => absurd hex hx.1⟩,
      ⟨fun h => absurd h (by decide), fun hx => absurd hex hx.1⟩⟩

/-- Witness for C1 at a concrete input: the selection of the fruit group in
the fresh session is classified Correct. -/
theorem submit_classification_witness :
    (submit thePuzzle
        { initState with selected := ["APPLE", "PEAR", "PLUM", "KIWI"] }).message =
      "Correct!" :=
  (submit_classification thePuzzle
      { initState with selected := ["APPLE", "PEAR", "PLUM", "KIWI"] }
      rfl rfl (by decide) (by decide) (by decide)).1.mpr
    ⟨{ id := "y1", title := "KINDS OF FRUIT", color := Color.yellow
     , words := ["APPLE", "PEAR", "PLUM", "KIWI"] }, by decide, by decide⟩

/-- C2: the game is over iff `mistakesLeft = 0` or four groups are solved;
in every reachable session state Won (`|solved| = 4`) and Lost
(`mistakesLeft = 0` and `|solved| < 4`) are mutually exclusive;
`mistakesLeft` never increases and `solved` never shrinks under any
operation; and once the game is over, toggle, submit, shuffle and clear
leave the session state unchanged. -/
theorem game_over_invariants :
    (∀ st : GameState, isGameOver st = true ↔
        (st.mistakesLeft = 0 ∨ st.solved.length = 4)) ∧
    (∀ (p : Puzzle) (ops : List Op),
        (didWin (run p initState ops) = true ↔
          (run p initState ops).solved.length = 4) ∧
        (isLoss (run p initState ops) = true ↔
          ((run p initState ops).mistakesLeft = 0 ∧
            (run p initState ops).solved.length < 4)) ∧
        ¬(didWin (run p initState ops) = true ∧
            isLoss (run p initState ops) = true)) ∧
    (∀ (p : Puzzle) (st : GameState) (op : Op),
        (step p st op).mistakesLeft ≤ st.mistakesLeft ∧
        ∃ t, (step p st op).solved = st.solved ++ t) ∧
    (∀ (p : Puzzle) (st : GameState) (op : Op),
        isGameOver st = true → step p st op = st) := by
  refine ⟨?_, ?_, ?_, ?_⟩
  · intro st
    simp [isGameOver]
  · intro p ops
    have hle : (run p initState ops).solved.length ≤ 4 :=
      run_solved_le p ops initState (by simp [initState])
    refine ⟨by simp [didWin], ?_, ?_⟩
    · simp only [isLoss, isGameOver, didWin, Bool.and_eq_true, Bool.or_eq_true,
        Bool.not_eq_true', beq_iff_eq, beq_eq_false_iff_ne]
      constructor
      · rintro ⟨h1 | h1, h2⟩ <;> omega
      · rintro ⟨hm, hl⟩
        exact ⟨Or.inl hm, by omega⟩
    · rintro ⟨hw, hl⟩
      have hfalse : isLoss (run p initState ops) = false := by
        simp [isLoss, hw]
      rw [hfalse] at hl
      cases hl
  · intro p st op
    obtain ⟨t, ht, -⟩ := step_solved_shape p st op
    exact ⟨step_mistakes_le p st op, t, ht⟩
  · intro p st op h
    exact step_over op h

/-- Witness for C2 at a concrete input: after submitting the fruit group
from the fresh session, the reached state is not simultaneously Won and
Lost, and a further submit in a finished (lost) state changes nothing. -/
theorem game_over_invariants_witness :
    ¬(didWin (run thePuzzle initState [Op.submitSel]) = true ∧
        isLoss (run thePuzzle initState [Op.submitSel]) = true) ∧
    step thePuzzle { initState with mistakesLeft := 0 } Op.submitSel =
      { initState with mistakesLeft := 0 } :=
  ⟨(game_over_invariants.2.1 thePuzzle [Op.submitSel]).2.2,
   game_over_invariants.2.2.2 thePuzzle { initState with mistakesLeft := 0 }
     Op.submitSel (by decide)⟩

/-- C3: if the normalized signature of the submitted 4-word selection is
already in `guessedSets`, `submit` rejects it with the distinct message
"Already guessed." and mutates no session state: `mistakesLeft`, `solved`,
`guessedSets`, `selected` and `seed` are all unchanged. -/
theorem duplicate_guess_rejected (p : Puzzle) (st : GameState)
    (h1 : st.lockedOut = false) (h2 : isGameOver st = false)
    (h3 : st.selected.length = 4)
    (h4 : normalizeSet st.selected ∈ st.guessedSets) :
    (submit p st).message = "Already guessed." ∧
    (submit p st).mistakesLeft = st.mistakesLeft ∧
    (submit p st).solved = st.solved ∧
    (submit p st).guessedSets = st.guessedSets ∧
    (submit p st).selected = st.selected ∧
    (submit p st).seed = st.seed := by
  rw [submit_dup h1 h2 h3 h4]
  exact ⟨rfl, rfl, rfl, rfl, rfl, rfl⟩

/-- Witness for C3 at a concrete input: resubmitting the already-recorded
fruit signature is rejected and changes nothing. -/
theorem duplicate_guess_rejected_witness :
    (submit thePuzzle
        { initState with
          selected := ["APPLE", "PEAR", "PLUM", "KIWI"],
          guessedSets := ["APPLE|KIWI|PEAR|PLUM"] }).message =
      "Already guessed." ∧
    (submit thePuzzle
        { initState with
          selected := ["APPLE", "PEAR", "PLUM", "KIWI"],
          guessedSets := ["APPLE|KIWI|PEAR|PLUM"] }).mistakesLeft = 4 ∧
    (submit thePuzzle
        { initState with
          selected := ["APPLE", "PEAR", "PLUM", "KIWI"],
          guessedSets := ["APPLE|KIWI|PEAR|PLUM"] }).solved = [] ∧
    (submit thePuzzle
        { initState with
          selected := ["APPLE", "PEAR", "PLUM", "KIWI"],
          guessedSets := ["APPLE|KIWI|PEAR|PLUM"] }).guessedSets =
      ["APPLE|KIWI|PEAR|PLUM"] ∧
    (submit thePuzzle
        { initState with
          selected := ["APPLE", "PEAR", "PLUM", "KIWI"],
          guessedSets := ["APPLE|KIWI|PEAR|PLUM"] }).selected =
      ["APPLE", "PEAR", "PLUM", "KIWI"] ∧
    (submit thePuzzle
        { initState with
          selected := ["APPLE", "PEAR", "PLUM", "KIWI"],
          guessedSets := ["APPLE|KIWI|PEAR|PLUM"] }).seed = 0 :=
  duplicate_guess_rejected thePuzzle
    { initState with
      selected := ["APPLE", "PEAR", "PLUM", "KIWI"],
      guessedSets := ["APPLE|KIWI|PEAR|PLUM"] }
    rfl rfl (by decide) (by decide)

/-- C4: from a fresh session, after any sequence of operations,
`mistakesLeft` is `4` minus the number of accepted non-matching 4-word
submissions (each such submission is distinct because a repeated signature
is rejected), and that count never exceeds 4, so the subtraction is the
floored `max(0, 4 - count)`; a Correct submission appends the matched group
to `solved`, clears the selection and keeps `mistakesLeft`; a non-matching
one decrements `mistakesLeft` (floored at 0 by the saturated subtraction),
records the signature in `guessedSets` and leaves the selection intact. -/
theorem mistakes_budget :
    (∀ (p : Puzzle) (ops : List Op),
        (run p initState ops).mistakesLeft = 4 - wrongCount p initState ops ∧
        wrongCount p initState ops ≤ 4) ∧
    (∀ (p : Puzzle) (st : GameState) (g : Group),
        st.lockedOut = false → isGameOver st = false →
        st.selected.length = 4 →
        normalizeSet st.selected ∉ st.guessedSets →
        findMatch p st = some g →
        (submit p st).solved = st.solved ++
          [{ id := g.id, title := g.title, color := g.color, words := g.words }] ∧
        (submit p st).selected = [] ∧
        (submit p st).mistakesLeft = st.mistakesLeft) ∧
    (∀ (p : Puzzle) (st : GameState),
        st.lockedOut = false → isGameOver st = false →
        st.selected.length = 4 →
        normalizeSet st.selected ∉ st.guessedSets →
        findMatch p st = none →
        (submit p st).mistakesLeft = st.mistakesLeft - 1 ∧
        (submit p st).guessedSets = st.guessedSets ++ [normalizeSet st.selected] ∧
        (submit p st).selected = st.selected) := by
  refine ⟨?_, ?_, ?_⟩
  · intro p ops
    exact run_mistakes p ops initState
  · intro p st g h1 h2 h3 h4 h5
    rw [submit_match h1 h2 h3 h4 h5]
    exact ⟨rfl, rfl, rfl⟩
  · intro p st h1 h2 h3 h4 h5
    rw [submit_nomatch h1 h2 h3 h4 h5]
    exact ⟨rfl, rfl, rfl⟩

/-- Witness for C4 at concrete inputs: a Correct submission keeps all 4
mistakes, a non-matching submission uses exactly one. -/
theorem mistakes_budget_witness :
    (submit thePuzzle
        { initState with selected := ["APPLE", "PEAR", "PLUM", "KIWI"] }).mistakesLeft
      = 4 ∧
    (submit thePuzzle
        { initState with selected := ["APPLE", "PEAR", "HEAP", "TREE"] }).mistakesLeft
      = 4 - 1 :=
  ⟨(mistakes_budget.2.1 thePuzzle
      { initState with selected := ["APPLE", "PEAR", "PLUM", "KIWI"] }
      { id := "y1", title := "KINDS OF FRUIT", color := Color.yellow
      , words := ["APPLE", "PEAR", "PLUM", "KIWI"] }
      rfl rfl (by decide) (by decide) (by decide)).2.2,
   (mistakes_budget.2.2 thePuzzle
      { initState with selected := ["APPLE", "PEAR", "HEAP", "TREE"] }
      rfl rfl (by decide) (by decide) (by decide)).1⟩

/-- C5: for every puzzle and reshuffle counter, the displayed word order is
a permutation of the puzzle's word multiset; the shuffle is deterministic
(repeated calls with the same date and counter agree); the seed derived from
`2025-12-18` is the digit concatenation `20251218`; and the counters 0 and 1
give different orders for the repository's puzzle. -/
theorem shuffle_properties :
    (∀ (p : Puzzle) (c : Nat),
        (allWords p c).Perm (p.groups.flatMap (fun g => g.words))) ∧
    (∀ (p : Puzzle) (c : Nat), allWords p c = allWords p c) ∧
    seedFromDate "2025-12-18" = 20251218 ∧
    allWords thePuzzle 0 ≠ allWords thePuzzle 1 := by
  refine ⟨?_, fun p c => rfl, by decide, by decide⟩
  intro p c
  exact seededShuffle_perm _ _

/-- Witness for C5 at a concrete input: the counter-0 display order is a
permutation of the repository puzzle's 16 words. -/
theorem shuffle_properties_witness :
    (allWords thePuzzle 0).Perm (thePuzzle.groups.flatMap (fun g => g.words)) :=
  shuffle_properties.1 thePuzzle 0

/-- C6: whenever the game is Lost (`mistakesLeft = 0` with fewer than 4
groups solved) and the reveal sequence has finished (`revealMode = false`),
the board rows equal exactly the puzzle's groups in original order,
regardless of the solved rows or the reveal accumulator. -/
theorem lost_board_full_solution (p : Puzzle) (st : GameState)
    (rg : List SolvedGroup)
    (hm : st.mistakesLeft = 0) (hs : st.solved.length ≠ 4) :
    boardRows p false st rg = finalSolutionRows p ∧
    finalSolutionRows p = p.groups.map (fun g =>
      { id := g.id, title := g.title, color := g.color, words := g.words }) := by
  constructor
  · simp [boardRows, isGameOver, didWin, hm, hs]
  · rfl

/-- Witness for C6 at a concrete input: a lost session with one solved group
still shows the full four-group solution. -/
theorem lost_board_full_solution_witness :
    boardRows thePuzzle false
        { initState with
          mistakesLeft := 0,
          solved := [{ id := "y1", title := "KINDS OF FRUIT",
                       color := Color.yellow,
                       words := ["APPLE", "PEAR", "PLUM", "KIWI"] }] }
        [] =
      finalSolutionRows thePuzzle :=
  (lost_board_full_solution thePuzzle
      { initState with
        mistakesLeft := 0,
        solved := [{ id := "y1", title := "KINDS OF FRUIT",
                     color := Color.yellow,
                     words := ["APPLE", "PEAR", "PLUM", "KIWI"] }] }
      [] rfl (by decide)).1

/-- C7: when a finished game is first recorded: on a win `totalCompleted`
rises by 1, `currentStreak` becomes the previous streak plus 1 when the
previously recorded completion date lies exactly one calendar day before the
puzzle's date (`daysBetween = 1`) and 1 otherwise (also when no completion
was recorded), and `longestStreak` becomes the maximum of the old
`longestStreak` and the new `currentStreak`; on a loss `currentStreak`
resets to 0.  The concrete `daysBetween` facts anchor the calendar reading
of "one day before" across a month boundary. -/
theorem stats_update_rule (prev : PlayerStats) (mu se : Nat) (d : String) :
    ((updateStats prev true mu se d).totalCompleted = prev.totalCompleted + 1) ∧
    ((updateStats prev true mu se d).currentStreak =
      match prev.lastCompletedDate with
      | none => 1
      | some last =>
          if daysBetween last d = 1 then prev.currentStreak + 1 else 1) ∧
    ((updateStats prev true mu se d).longestStreak =
      max prev.longestStreak (updateStats prev true mu se d).currentStreak) ∧
    ((updateStats prev false mu se d).currentStreak = 0) ∧
    daysBetween "2025-12-17" "2025-12-18" = 1 ∧
    daysBetween "2025-12-31" "2026-01-01" = 1 ∧
    daysBetween "2025-12-16" "2025-12-18" = 2 :=
  ⟨rfl, rfl, rfl, rfl, by decide, by decide, by decide⟩

/-- Witness for C7 at a concrete input: a win recorded one calendar day
after the previous completion extends the streak from 2 to 3. -/
theorem stats_update_rule_witness :
    (updateStats
        { totalPlayed := 3, totalCompleted := 2, currentStreak := 2
        , longestStreak := 2, lastCompletedDate := some "2025-12-17"
        , totalMistakesUsed := 1, totalSeconds := 100 }
        true 0 60 "2025-12-18").currentStreak = 3 := by
  rw [(stats_update_rule
      { totalPlayed := 3, totalCompleted := 2, currentStreak := 2
      , longestStreak := 2, lastCompletedDate := some "2025-12-17"
      , totalMistakesUsed := 1, totalSeconds := 100 }
      0 60 "2025-12-18").2.1]
  decide

/-- C8: for the repository's puzzle table, the today endpoint returns a
puzzle dated `today` whenever one exists, and otherwise falls back to the
most recent defined puzzle (for this table the last entry is the most
recent).  The "today in America/Chicago" clock value is the endpoint's
input here. -/
theorem today_endpoint_behavior (today : String) :
    ((∃ q ∈ PUZZLES, q.date = today) →
        ∃ q, todayPuzzle PUZZLES today = some q ∧ q.date = today) ∧
    ((¬∃ q ∈ PUZZLES, q.date = today) →
        todayPuzzle PUZZLES today = specMostRecentPuzzle PUZZLES) := by
  constructor
  · rintro ⟨q, hq, hd⟩
    have hq1 : q = thePuzzle := by simpa [PUZZLES] using hq
    subst hq1
    refine ⟨thePuzzle, ?_, hd⟩
    simp [todayPuzzle, PUZZLES, List.find?, hd]
  · intro hn
    have hd : ¬thePuzzle.date = today := fun h => hn ⟨thePuzzle, by simp [PUZZLES], h⟩
    have hb : (thePuzzle.date == today) = false := beq_eq_false_iff_ne.mpr hd
    simp [todayPuzzle, PUZZLES, specMostRecentPuzzle, List.find?, hb]

/-- Witness for C8 at concrete inputs: on the defined date the endpoint
serves that puzzle; on an undefined date it serves the most recent one. -/
theorem today_endpoint_behavior_witness :
    (∃ q, todayPuzzle PUZZLES "2025-12-18" = some q ∧ q.date = "2025-12-18") ∧
    todayPuzzle PUZZLES "2099-01-01" = specMostRecentPuzzle PUZZLES :=
  ⟨(today_endpoint_behavior "2025-12-18").1 ⟨thePuzzle, by decide, rfl⟩,
   (today_endpoint_behavior "2099-01-01").2 (by decide)⟩

/-- C9: every submission passing the size-4 and not-already-guessed checks,
a Correct one included, gets its normalized signature into `guessedSets`;
no operation removes entries from `guessedSets`; and a selection whose
signature is already recorded is rejected as already guessed (no change to
`solved`, so it is not reported Correct). -/
theorem guessed_sets_recording :
    (∀ (p : Puzzle) (st : GameState),
        st.lockedOut = false → isGameOver st = false →
        st.selected.length = 4 →
        normalizeSet st.selected ∉ st.guessedSets →
        normalizeSet st.selected ∈ (submit p st).guessedSets) ∧
    (∀ (p : Puzzle) (st : GameState) (op : Op) (x : String),
        x ∈ st.guessedSets → x ∈ (step p st op).guessedSets) ∧
    (∀ (p : Puzzle) (st : GameState),
        st.lockedOut = false → isGameOver st = false →
        st.selected.length = 4 →
        normalizeSet st.selected ∈ st.guessedSets →
        (submit p st).message = "Already guessed." ∧
        (submit p st).solved = st.solved) := by
  refine ⟨?_, ?_, ?_⟩
  · intro p st h1 h2 h3 h4
    rcases hf : findMatch p st with _ | g
    · rw [submit_nomatch h1 h2 h3 h4 hf]
      simp
    · rw [submit_match h1 h2 h3 h4 hf]
      simp
  · intro p st op x hx
    obtain ⟨t, ht⟩ := step_guessed_shape p st op
    rw [ht]
    exact List.mem_append.mpr (Or.inl hx)
  · intro p st h1 h2 h3 h4
    rw [submit_dup h1 h2 h3 h4]
    exact ⟨rfl, rfl⟩

/-- Witness for C9 at a concrete input: a Correct submission of the fruit
group records its signature, and resubmitting that signature afterwards is
rejected without touching `solved`. -/
theorem guessed_sets_recording_witness :
    normalizeSet ["APPLE", "PEAR", "PLUM", "KIWI"] ∈
      (submit thePuzzle
        { initState with
          selected := ["APPLE", "PEAR", "PLUM", "KIWI"] }).guessedSets ∧
    ((submit thePuzzle
        { initState with
          selected := ["APPLE", "PEAR", "PLUM", "KIWI"],
          guessedSets := ["APPLE|KIWI|PEAR|PLUM"] }).message =
      "Already guessed." ∧
     (submit thePuzzle
        { initState with
          selected := ["APPLE", "PEAR", "PLUM", "KIWI"],
          guessedSets := ["APPLE|KIWI|PEAR|PLUM"] }).solved = []) :=
  ⟨guessed_sets_recording.1 thePuzzle
      { initState with selected := ["APPLE", "PEAR", "PLUM", "KIWI"] }
      rfl rfl (by decide) (by decide),
   guessed_sets_recording.2.2 thePuzzle
      { initState with
        selected := ["APPLE", "PEAR", "PLUM", "KIWI"],
        guessedSets := ["APPLE|KIWI|PEAR|PLUM"] }
      rfl rfl (by decide) (by decide)⟩

/-- C10: the sort-and-join normalization is not injective on word sets when
a word may contain the separator: the two 4-word selections below have
different word sets, one word contains the bar character, yet their
signatures coincide, and a session that already guessed one of them rejects
the other as "Already guessed." (treating them as the same guess). -/
theorem normalize_signature_collision :
    normalizeSet ["A|B", "C", "D", "E"] = normalizeSet ["A", "B|C", "D", "E"] ∧
    (["A|B", "C", "D", "E"] : List String).toFinset ≠
      (["A", "B|C", "D", "E"] : List String).toFinset ∧
    '|' ∈ "A|B".data ∧
    (∀ (p : Puzzle) (st : GameState),
        st.lockedOut = false → isGameOver st = false →
        st.selected = ["A|B", "C", "D", "E"] →
        normalizeSet ["A", "B|C", "D", "E"] ∈ st.guessedSets →
        (submit p st).message = "Already guessed.") := by
  refine ⟨by decide, by decide, by decide, ?_⟩
  intro p st h1 h2 hsel hdup
  have h3 : st.selected.length = 4 := by rw [hsel]; rfl
  have h4 : normalizeSet st.selected ∈ st.guessedSets := by
    rw [hsel]
    have he : normalizeSet ["A|B", "C", "D", "E"] =
        normalizeSet ["A", "B|C", "D", "E"] := by decide
    rw [he]
    exact hdup
  rw [submit_dup h1 h2 h3 h4]

/-- Witness for C10 at a concrete input: with the signature of the second
selection recorded, submitting the first is rejected as already guessed. -/
theorem normalize_signature_collision_witness :
    (submit thePuzzle
        { initState with
          selected := ["A|B", "C", "D", "E"],
          guessedSets := ["A|B|C|D|E"] }).message = "Already guessed." :=
  normalize_signature_collision.2.2.2 thePuzzle
    { initState with
      selected := ["A|B", "C", "D", "E"],
      guessedSets := ["A|B|C|D|E"] }
    rfl rfl rfl (by decide)

end Baylordle
